import Mathlib

/-!
Shallow embedding of `mongoengine/django/forms.py`: helpers that build Django
form classes from mongoengine documents.  Python values are modelled by
`PyVal`, mongoengine field descriptors by `MongoField`, Django form fields by
`FormField`, and document instances by `DocInstance` (an ordered descriptor
list plus an attribute valuation).  Each Lean definition follows the
corresponding Python function line by line; Python truthiness is made
explicit, and raised exceptions become `Except` errors.
-/

set_option autoImplicit false

namespace MongoForms

/-- A Python value as it flows through form data: `none` is Python's `None`,
`obj` stands for an opaque (always-truthy) object such as a datetime. -/
inductive PyVal where
  | none
  | str (s : String)
  | int (n : Int)
  | bool (b : Bool)
  | obj (id : Nat)
  deriving DecidableEq, Repr

/-- Python truthiness for the values above (`bool(v)`). -/
def pyTruthy : PyVal → Bool
  | PyVal.none => false
  | PyVal.str s => s ≠ ""
  | PyVal.int n => n ≠ 0
  | PyVal.bool b => b
  | PyVal.obj _ => true

/-- A mongoengine field descriptor, with the attributes `forms.py` reads.
`className` is `mongo_field.__class__.__name__`; `validation` is the optional
custom validation callable (identified by a numeric id, callables are truthy);
`regex` is the optional compiled pattern of a `StringField`. -/
structure MongoField where
  className : String
  choices : List (String × String)
  validation : Option Nat
  regex : Option String
  maxLength : Option Int
  minLength : Option Int
  minValue : Option Int
  maxValue : Option Int
  verifyExists : Bool
  verboseName : Option String
  required : Bool
  helpText : String
  deriving DecidableEq, Repr

/-- A validator placed on a produced form field: either the document field's
custom validation callable or a `RegexValidator` built from its pattern. -/
inductive Valr where
  | custom (id : Nat)
  | regexV (pattern : String)
  deriving DecidableEq, Repr

/-- The keyword arguments every branch of the translator passes along:
`widget`, `label = verbose_name`, `required`, `help_text`. -/
structure FFCommon where
  widget : Option Nat
  label : Option String
  required : Bool
  helpText : String
  deriving DecidableEq, Repr

/-- A Django form field as constructed by `mongofield_to_formfield`; each
constructor carries exactly the keyword arguments the Python code passes
(`booleanF` and `choiceF` receive no `validators` argument). -/
inductive FormField where
  | choiceF (choices : List (String × String)) (common : FFCommon)
  | charF (maxLength minLength : Option Int) (validators : List Valr) (common : FFCommon)
  | integerF (minValue maxValue : Option Int) (validators : List Valr) (common : FFCommon)
  | floatF (maxValue minValue : Option Int) (validators : List Valr) (common : FFCommon)
  | booleanF (common : FFCommon)
  | datetimeF (validators : List Valr) (common : FFCommon)
  | decimalF (maxValue minValue : Option Int) (validators : List Valr) (common : FFCommon)
  | urlF (verifyExists : Bool) (validators : List Valr) (common : FFCommon)
  | fileF (validators : List Valr) (common : FFCommon)
  | emailF (validators : List Valr) (common : FFCommon)
  | imageF (validators : List Valr) (common : FFCommon)
  deriving DecidableEq, Repr

/-- The validator list carried by a produced form field (`[]` for the two
constructors whose Python counterparts get no `validators` argument). -/
def FormField.validators : FormField → List Valr
  | FormField.choiceF _ _ => []
  | FormField.charF _ _ v _ => v
  | FormField.integerF _ _ v _ => v
  | FormField.floatF _ _ v _ => v
  | FormField.booleanF _ => []
  | FormField.datetimeF v _ => v
  | FormField.decimalF _ _ v _ => v
  | FormField.urlF _ v _ => v
  | FormField.fileF v _ => v
  | FormField.emailF v _ => v
  | FormField.imageF v _ => v

/-- `mongofield_to_formfield(mongo_field, widget=None)` (forms.py:64-165).
Choices are checked first; then the custom-validation callable is collected;
then dispatch on `__class__.__name__`; unknown kinds give `none`. -/
def mongofield_to_formfield (mf : MongoField) (widget : Option Nat) : Option FormField :=
  if mf.choices ≠ [] then
    some (FormField.choiceF mf.choices ⟨widget, mf.verboseName, mf.required, mf.helpText⟩)
  else
    let validators : List Valr :=
      match mf.validation with
      | some v => [Valr.custom v]
      | Option.none => []
    if mf.className = "StringField" then
      let validators' : List Valr :=
        match mf.regex with
        | some r => validators ++ [Valr.regexV r]
        | Option.none => validators
      some (FormField.charF mf.maxLength mf.minLength validators'
        ⟨widget, mf.verboseName, mf.required, mf.helpText⟩)
    else if mf.className = "IntField" then
      some (FormField.integerF mf.minValue mf.maxValue validators
        ⟨widget, mf.verboseName, mf.required, mf.helpText⟩)
    else if mf.className = "FloatField" then
      some (FormField.floatF mf.maxValue mf.minValue validators
        ⟨widget, mf.verboseName, mf.required, mf.helpText⟩)
    else if mf.className = "BooleanField" then
      some (FormField.booleanF ⟨widget, mf.verboseName, mf.required, mf.helpText⟩)
    else if mf.className = "DateTimeField" then
      some (FormField.datetimeF validators ⟨widget, mf.verboseName, mf.required, mf.helpText⟩)
    else if mf.className = "DecimalField" then
      some (FormField.decimalF mf.maxValue mf.minValue validators
        ⟨widget, mf.verboseName, mf.required, mf.helpText⟩)
    else if mf.className = "URLField" then
      some (FormField.urlF mf.verifyExists validators
        ⟨widget, mf.verboseName, mf.required, mf.helpText⟩)
    else if mf.className = "FileField" then
      some (FormField.fileF validators ⟨widget, mf.verboseName, mf.required, mf.helpText⟩)
    else if mf.className = "EmailField" then
      some (FormField.emailF validators ⟨widget, mf.verboseName, mf.required, mf.helpText⟩)
    else if mf.className = "ImageField" then
      some (FormField.imageF validators ⟨widget, mf.verboseName, mf.required, mf.helpText⟩)
    else Option.none

/-- First-match association-list lookup, modelling Python `dict` access on the
dicts this module builds (`d[k]`/`d.get(k)` as `Option`). -/
def alookup {α : Type} : List (String × α) → String → Option α
  | [], _ => Option.none
  | p :: rest, k => if p.1 = k then some p.2 else alookup rest k

/-- Truthiness of an optional Python list (`None` and `[]` are falsy). -/
def optListTruthy (o : Option (List String)) : Bool :=
  match o with
  | some l => !l.isEmpty
  | Option.none => false

/-- The underlying list of an optional list (`[]` for `None`). -/
def optList (o : Option (List String)) : List String := o.getD []

/-- `fields is not None and name not in fields` (forms.py:29, 176). -/
def skipFields (fields : Option (List String)) (name : String) : Bool :=
  match fields with
  | some l => !l.contains name
  | Option.none => false

/-- `exclude and name in exclude` (forms.py:31, 59, 178). -/
def skipExclude (exclude : Option (List String)) (name : String) : Bool :=
  optListTruthy exclude && (optList exclude).contains name

/-- `isinstance(field, (mongoengine.URLField, mongoengine.EmailField))`
(forms.py:34); neither class has subclasses in the library. -/
def isUrlOrEmail (f : MongoField) : Bool :=
  f.className = "URLField" || f.className = "EmailField"

/-- A document instance: its class's ordered `_fields` and its attribute
valuation (`field.__get__` reads it, `field.__set__` updates it). -/
structure DocInstance where
  fields : List (String × MongoField)
  attrs : String → PyVal

/-- The value `field.__set__` writes for a cleaned value `v`: URL/email
fields turn a falsy `v` into `None` (forms.py:34-39), all others write `v`. -/
def writtenVal (f : MongoField) (v : PyVal) : PyVal :=
  if isUrlOrEmail f then (if pyTruthy v then v else PyVal.none) else v

/-- One iteration of the `construct_instance` loop (forms.py:26-40) acting on
the attribute valuation: skip when the name is not in `cleaned_data`, is
filtered by `fields`, or is excluded; otherwise write `writtenVal`. -/
def writeField (cleaned : List (String × PyVal)) (fields exclude : Option (List String))
    (attrs : String → PyVal) (p : String × MongoField) : String → PyVal :=
  match alookup cleaned p.1 with
  | Option.none => attrs
  | some v =>
    if skipFields fields p.1 then attrs
    else if skipExclude exclude p.1 then attrs
    else fun n => if n = p.1 then writtenVal p.2 v else attrs n

/-- `construct_instance(form, instance, fields, exclude)` (forms.py:17-42):
fold the write loop over the instance's declared fields. -/
def construct_instance (cleaned : List (String × PyVal)) (inst : DocInstance)
    (fields exclude : Option (List String)) : DocInstance :=
  DocInstance.mk inst.fields (inst.fields.foldl (writeField cleaned fields exclude) inst.attrs)

/-- `if fields and not name in fields: continue` (forms.py:57): note the
truthiness test, an empty include list filters nothing here. -/
def d2dSkipFields (fields : Option (List String)) (name : String) : Bool :=
  optListTruthy fields && !(optList fields).contains name

/-- `doc_to_dict(instance, fields, exclude)` (forms.py:47-62). -/
def doc_to_dict (inst : DocInstance) (fields exclude : Option (List String)) :
    List (String × PyVal) :=
  inst.fields.filterMap (fun p =>
    if d2dSkipFields fields p.1 then Option.none
    else if skipExclude exclude p.1 then Option.none
    else some (p.1, inst.attrs p.1))

/-- The errors `fields_for_doc` raises (forms.py:188, 190).  The unsupported
Python `TypeError`'s message interpolates only the descriptor
(`"%s is an unsupported field types ..." % field`), so the payload here is
the descriptor alone. -/
inductive FormsErr where
  | unsupportedField (descriptor : MongoField)
  | callbackNotCallable
  deriving DecidableEq, Repr

/-- A caller-supplied `formfield_callback` value: whether it is callable and,
when it is, the function it computes. -/
structure FFCallback where
  callable : Bool
  run : MongoField → Option Nat → Option FormField

/-- The widget kwarg for one field: `widgets[name]` when `widgets` is truthy
and has the name, else the default `None` (forms.py:180-183). -/
def widgetFor (widgets : List (String × Nat)) (name : String) : Option Nat :=
  alookup widgets name

/-- One insertion into a Django `SortedDict`: an existing key keeps its
position and takes the new value, a new key is appended. -/
def sdInsert {α : Type} (acc : List (String × α)) (p : String × α) : List (String × α) :=
  if acc.any (fun q => q.1 = p.1) then
    acc.map (fun q => if q.1 = p.1 then (q.1, p.2) else q)
  else acc ++ [p]

/-- `SortedDict(pairs)`: fold the insertions over the pair list. -/
def sortedDictOfList {α : Type} (l : List (String × α)) : List (String × α) :=
  l.foldl sdInsert []

/-- `d.update(pairs)` on a `SortedDict` (forms.py:241). -/
def sortedDictUpdate {α : Type} (d : List (String × α)) (l : List (String × α)) :
    List (String × α) :=
  l.foldl sdInsert d

/-- The main loop of `fields_for_doc` (forms.py:173-197), threading the
`field_list` and `ignored` accumulators and raising via `Except`. -/
def ffdLoop (widgets : List (String × Nat)) (cb : Option FFCallback)
    (fields exclude : Option (List String)) :
    List (String × MongoField) → List (String × FormField) → List String →
    Except FormsErr (List (String × FormField) × List String)
  | [], fl, ign => Except.ok (fl, ign)
  | p :: rest, fl, ign =>
    if skipFields fields p.1 then ffdLoop widgets cb fields exclude rest fl ign
    else if skipExclude exclude p.1 then ffdLoop widgets cb fields exclude rest fl ign
    else
      match cb with
      | Option.none =>
        match mongofield_to_formfield p.2 (widgetFor widgets p.1) with
        | Option.none => Except.error (FormsErr.unsupportedField p.2)
        | some ff => ffdLoop widgets cb fields exclude rest (fl ++ [(p.1, ff)]) ign
      | some c =>
        if c.callable then
          match c.run p.2 (widgetFor widgets p.1) with
          | some ff => ffdLoop widgets cb fields exclude rest (fl ++ [(p.1, ff)]) ign
          | Option.none => ffdLoop widgets cb fields exclude rest fl (ign ++ [p.1])
        else Except.error FormsErr.callbackNotCallable

/-- The guard of the final include-list comprehension (forms.py:202), with
Python's precedence made explicit:
`(not exclude) or ((exclude and f not in exclude) and (f not in ignored))`. -/
def keepCond (exclude : Option (List String)) (ignored : List String) (f : String) : Bool :=
  !optListTruthy exclude ||
    ((optListTruthy exclude && !(optList exclude).contains f) && !ignored.contains f)

/-- `fields_for_doc(doc, fields, exclude, widgets, formfield_callback)`
(forms.py:167-204).  The returned dict's values are `Option FormField`
because `field_dict.get(f)` in the include-list restriction may be `None`. -/
def fields_for_doc (docFields : List (String × MongoField))
    (fields exclude : Option (List String)) (widgets : List (String × Nat))
    (cb : Option FFCallback) : Except FormsErr (List (String × Option FormField)) :=
  match ffdLoop widgets cb fields exclude docFields [] [] with
  | Except.error e => Except.error e
  | Except.ok (fl, ign) =>
    let field_dict := sortedDictOfList fl
    match fields with
    | some l =>
      if l.isEmpty then Except.ok (field_dict.map (fun p => (p.1, some p.2)))
      else
        Except.ok (sortedDictOfList (l.filterMap (fun f =>
          if keepCond exclude ign f then some (f, alookup field_dict f) else Option.none)))
    | Option.none => Except.ok (field_dict.map (fun p => (p.1, some p.2)))

/-- Errors of the metaclass's field-assembly step: a collector error, or the
evaluation of an undefined name (`FieldError` is never imported in forms.py,
so line 238 raises `NameError` carrying only the undefined identifier). -/
inductive MetaErr where
  | collect (e : FormsErr)
  | nameErrorUndefined (ident : String)
  deriving DecidableEq, Repr

/-- The field-assembly part of `DocFormMetaclass.__new__` (forms.py:229-245)
for a class with parents: derive `fields_for_doc`, fail on auto-derived names
with no resolvable field that are not declared, else merge declared fields
over the derived ones. -/
def docFormBaseFields (document : Option (List (String × MongoField)))
    (optFields optExclude : Option (List String)) (widgets : List (String × Nat))
    (cb : Option FFCallback) (declared : List (String × FormField)) :
    Except MetaErr (List (String × Option FormField)) :=
  match document with
  | Option.none => Except.ok (declared.map (fun p => (p.1, some p.2)))
  | some docFields =>
    match fields_for_doc docFields optFields optExclude widgets cb with
    | Except.error e => Except.error (MetaErr.collect e)
    | Except.ok fs =>
      let noneDocFields := (fs.filter (fun p => p.2 = Option.none)).map (fun p => p.1)
      let missingFields :=
        noneDocFields.filter (fun k => !(declared.map (fun p => p.1)).contains k)
      if !missingFields.isEmpty then Except.error (MetaErr.nameErrorUndefined "FieldError")
      else Except.ok (sortedDictUpdate fs (declared.map (fun p => (p.1, some p.2))))

/-- Whether the bound instance is a `mongoengine.EmbeddedDocument` or a
`mongoengine.Document` (the two disjoint kinds `save` tests). -/
inductive InstKind where
  | embedded
  | document
  deriving DecidableEq, Repr

/-- The errors `BaseDocForm.save` raises (forms.py:296, 305): the payload of
`validationError` is the instance type name and the `created`/`changed`
fail message interpolated into the `ValueError`'s text. -/
inductive SaveErr where
  | embeddedCommitError
  | validationError (typeName failMessage : String)
  deriving DecidableEq, Repr

/-- `BaseDocForm.save(commit)` (forms.py:289-308): embedded instances return
(or reject `commit`) before the error check; document instances compute the
fail message from `pk` and raise when errors were recorded.  The actual
database write of `commit=True` is external and returns the instance. -/
def BaseDocForm.save (kind : InstKind) (typeName : String) (pk : Option PyVal)
    (inst : DocInstance) (errors : List String) (commit : Bool) :
    Except SaveErr DocInstance :=
  match kind with
  | InstKind.embedded =>
    if commit then Except.error SaveErr.embeddedCommitError else Except.ok inst
  | InstKind.document =>
    let failMessage := if pk.isNone then "created" else "changed"
    if !errors.isEmpty then Except.error (SaveErr.validationError typeName failMessage)
    else Except.ok inst

/-- The round-trip pipeline of the spec: read initial data off the instance
(`doc_to_dict`, forms.py:261), submit exactly those values so that
`cleaned_data` holds them, write them back (`_post_clean` calling
`construct_instance`, forms.py:282), then `save(commit=False)` with no
recorded errors (forms.py:289-308). -/
def formRoundTrip (kind : InstKind) (typeName : String) (pk : Option PyVal)
    (inst : DocInstance) (fields exclude : Option (List String)) :
    Except SaveErr DocInstance :=
  let cleaned := doc_to_dict inst fields exclude
  let inst' := construct_instance cleaned inst fields exclude
  BaseDocForm.save kind typeName pk inst' [] false

/-- Whether the `construct_instance` loop writes the attribute `name`:
the name is a key of `cleaned_data` and passes both filters. -/
def writesAt (cleaned : List (String × PyVal)) (fields exclude : Option (List String))
    (name : String) : Bool :=
  (alookup cleaned name).isSome && !skipFields fields name && !skipExclude exclude name

theorem writeField_ne (cleaned : List (String × PyVal)) (fields exclude : Option (List String))
    (attrs : String → PyVal) (p : String × MongoField) (n : String) (h : n ≠ p.1) :
    writeField cleaned fields exclude attrs p n = attrs n := by
  unfold writeField
  cases halo : alookup cleaned p.1 with
  | none => rfl
  | some v =>
    by_cases h1 : skipFields fields p.1 = true
    · simp [h1]
    · simp only [h1]
      by_cases h2 : skipExclude exclude p.1 = true
      · simp [h2]
      · simp [h2, h]

theorem writeField_skip (cleaned : List (String × PyVal)) (fields exclude : Option (List String))
    (attrs : String → PyVal) (p : String × MongoField)
    (h : writesAt cleaned fields exclude p.1 = false) (n : String) :
    writeField cleaned fields exclude attrs p n = attrs n := by
  unfold writeField
  cases halo : alookup cleaned p.1 with
  | none => rfl
  | some v =>
    unfold writesAt at h
    rw [halo] at h
    simp only [Option.isSome_some, Bool.true_and, Bool.and_eq_false_iff,
      Bool.not_eq_false'] at h
    rcases h with h1 | h2
    · simp [h1]
    · by_cases h1 : skipFields fields p.1 = true
      · simp [h1]
      · simp [h1, h2]

theorem writeField_write (cleaned : List (String × PyVal)) (fields exclude : Option (List String))
    (attrs : String → PyVal) (p : String × MongoField) (v : PyVal)
    (hv : alookup cleaned p.1 = some v)
    (h1 : skipFields fields p.1 = false) (h2 : skipExclude exclude p.1 = false) :
    writeField cleaned fields exclude attrs p p.1 = writtenVal p.2 v := by
  unfold writeField
  rw [hv]
  simp [h1, h2]

theorem foldl_writeField_skip (cleaned : List (String × PyVal))
    (fields exclude : Option (List String)) (n : String)
    (hn : writesAt cleaned fields exclude n = false) :
    ∀ (l : List (String × MongoField)) (attrs : String → PyVal),
      (l.foldl (writeField cleaned fields exclude) attrs) n = attrs n := by
  intro l
  induction l with
  | nil => intro attrs; rfl
  | cons p t ih =>
    intro attrs
    rw [List.foldl_cons, ih]
    by_cases hp : n = p.1
    · rw [hp] at hn ⊢; exact writeField_skip cleaned fields exclude attrs p hn p.1
    · exact writeField_ne cleaned fields exclude attrs p n hp

theorem foldl_writeField_not_mem (cleaned : List (String × PyVal))
    (fields exclude : Option (List String)) (n : String) :
    ∀ (l : List (String × MongoField)) (attrs : String → PyVal),
      n ∉ l.map Prod.fst →
      (l.foldl (writeField cleaned fields exclude) attrs) n = attrs n := by
  intro l
  induction l with
  | nil => intro attrs _; rfl
  | cons p t ih =>
    intro attrs hmem
    simp only [List.map_cons, List.mem_cons, not_or] at hmem
    rw [List.foldl_cons, ih _ hmem.2]
    exact writeField_ne cleaned fields exclude attrs p n hmem.1

theorem foldl_writeField_write (cleaned : List (String × PyVal))
    (fields exclude : Option (List String)) (n : String) (f : MongoField) (v : PyVal)
    (hv : alookup cleaned n = some v)
    (h1 : skipFields fields n = false) (h2 : skipExclude exclude n = false) :
    ∀ (l : List (String × MongoField)) (attrs : String → PyVal),
      (l.map Prod.fst).Nodup → (n, f) ∈ l →
      (l.foldl (writeField cleaned fields exclude) attrs) n = writtenVal f v := by
  intro l
  induction l with
  | nil => intro attrs _ hmem; exact absurd hmem (List.not_mem_nil _)
  | cons p t ih =>
    intro attrs hnd hmem
    simp only [List.map_cons, List.nodup_cons] at hnd
    rw [List.foldl_cons]
    rcases List.mem_cons.mp hmem with heq | htail
    · have hn : n = p.1 := by rw [← heq]
      have hf : f = p.2 := by rw [← heq]
      have hnt : n ∉ t.map Prod.fst := by rw [hn]; exact hnd.1
      rw [foldl_writeField_not_mem cleaned fields exclude n t _ hnt, hn, hf]
      exact writeField_write cleaned fields exclude attrs p v (hn ▸ hv) (hn ▸ h1) (hn ▸ h2)
    · have hne : n ≠ p.1 := by
        intro hcontra
        exact hnd.1 (hcontra ▸ (List.mem_map.mpr ⟨(n, f), htail, rfl⟩))
      rw [ih _ hnd.2 htail]

/-- Invariant form of the write loop: if every possible write at `n` would
re-write the value `attrs` already holds there, the fold leaves `n` alone. -/
theorem foldl_writeField_fix (cleaned : List (String × PyVal))
    (fields exclude : Option (List String)) (n : String) (target : PyVal) :
    ∀ (l : List (String × MongoField)) (attrs : String → PyVal),
      attrs n = target →
      (∀ f v, (n, f) ∈ l → alookup cleaned n = some v →
        skipFields fields n = false → skipExclude exclude n = false →
        writtenVal f v = target) →
      (l.foldl (writeField cleaned fields exclude) attrs) n = target := by
  intro l
  induction l with
  | nil => intro attrs h _; exact h
  | cons p t ih =>
    intro attrs h hw
    rw [List.foldl_cons]
    refine ih _ ?_ (fun f v hm => hw f v (List.mem_cons_of_mem p hm))
    by_cases hp : n = p.1
    · rw [hp] at h ⊢
      by_cases hwr : writesAt cleaned fields exclude p.1 = true
      · unfold writesAt at hwr
        simp only [Bool.and_eq_true, Bool.not_eq_true', Option.isSome_iff_exists] at hwr
        obtain ⟨⟨⟨v, hv⟩, h1⟩, h2⟩ := hwr
        rw [writeField_write cleaned fields exclude attrs p v hv h1 h2]
        refine hw p.2 v ?_ (hp ▸ hv) (hp ▸ h1) (hp ▸ h2)
        rw [hp]
        exact List.mem_cons_self _ _
      · rw [Bool.not_eq_true] at hwr
        rw [writeField_skip cleaned fields exclude attrs p hwr p.1]
        exact h
    · rw [writeField_ne cleaned fields exclude attrs p n hp]; exact h

/-- Every entry of `doc_to_dict` pairs a name with that name's attribute
value, so a successful lookup returns the instance's value at the name. -/
theorem alookup_d2d_aux (A : String → PyVal) (fs ex : Option (List String))
    (n : String) (v : PyVal) :
    ∀ l : List (String × MongoField),
      alookup (l.filterMap (fun p =>
        if d2dSkipFields fs p.1 = true then Option.none
        else if skipExclude ex p.1 = true then Option.none
        else some (p.1, A p.1))) n = some v →
      v = A n := by
  intro l
  induction l with
  | nil => intro h; simp [alookup] at h
  | cons p t ih =>
    intro h
    rw [List.filterMap_cons] at h
    by_cases hd : d2dSkipFields fs p.1 = true
    · rw [if_pos hd] at h; exact ih h
    · rw [if_neg hd] at h
      by_cases he : skipExclude ex p.1 = true
      · rw [if_pos he] at h; exact ih h
      · rw [if_neg he] at h
        unfold alookup at h
        by_cases hp : p.1 = n
        · rw [if_pos hp] at h
          have := Option.some.inj h
          rw [← this, ← hp]
        · rw [if_neg hp] at h; exact ih h

/-- Every entry of `doc_to_dict` pairs a name with that name's attribute
value, so a successful lookup returns the instance's value at the name. -/
theorem alookup_doc_to_dict_value (inst : DocInstance) (fs ex : Option (List String))
    (n : String) (v : PyVal) (h : alookup (doc_to_dict inst fs ex) n = some v) :
    v = inst.attrs n :=
  alookup_d2d_aux inst.attrs fs ex n v inst.fields h

/-- The names read off the instance by `doc_to_dict`: declared fields passing
the (truthiness-based) include filter and the exclude filter. -/
theorem mem_doc_to_dict_keys (inst : DocInstance) (fs ex : Option (List String)) (n : String) :
    n ∈ (doc_to_dict inst fs ex).map Prod.fst ↔
      ((∃ f, (n, f) ∈ inst.fields) ∧ d2dSkipFields fs n = false ∧ skipExclude ex n = false) := by
  constructor
  · intro hmem
    rcases List.mem_map.mp hmem with ⟨q, hq, hqn⟩
    rcases List.mem_filterMap.mp hq with ⟨p, hp, hg⟩
    by_cases hd : d2dSkipFields fs p.1 = true
    · rw [if_pos hd] at hg; exact absurd hg (by simp)
    · rw [if_neg hd] at hg
      by_cases he : skipExclude ex p.1 = true
      · rw [if_pos he] at hg; exact absurd hg (by simp)
      · rw [if_neg he] at hg
        have hq1 : q = (p.1, inst.attrs p.1) := (Option.some.inj hg).symm
        have hpn : p.1 = n := by rw [hq1] at hqn; exact hqn
        refine ⟨⟨p.2, ?_⟩, ?_, ?_⟩
        · rw [← hpn]; exact hp
        · rw [← hpn]; exact Bool.not_eq_true _ ▸ hd
        · rw [← hpn]; exact Bool.not_eq_true _ ▸ he
  · rintro ⟨⟨f, hf⟩, h1, h2⟩
    refine List.mem_map.mpr ⟨(n, inst.attrs n), List.mem_filterMap.mpr ⟨(n, f), hf, ?_⟩, rfl⟩
    simp [h1, h2]

/-- A concrete `StringField` descriptor. -/
def strField : MongoField :=
  ⟨"StringField", [], Option.none, Option.none, Option.none, Option.none, Option.none,
    Option.none, false, Option.none, false, ""⟩

/-- A concrete `DictField` descriptor, a kind outside the supported table. -/
def dictField : MongoField :=
  ⟨"DictField", [], Option.none, Option.none, Option.none, Option.none, Option.none,
    Option.none, false, Option.none, false, ""⟩

/-- A concrete `EmailField` descriptor. -/
def emailField : MongoField :=
  ⟨"EmailField", [], Option.none, Option.none, Option.none, Option.none, Option.none,
    Option.none, false, Option.none, false, ""⟩

/-- A concrete `BooleanField` descriptor carrying a custom validation
callable (id 7). -/
def boolValField : MongoField :=
  ⟨"BooleanField", [], some 7, Option.none, Option.none, Option.none, Option.none,
    Option.none, false, Option.none, false, ""⟩

/-- A concrete `ListField` descriptor (unsupported kind) that declares
choices. -/
def listChoicesField : MongoField :=
  ⟨"ListField", [("x", "X")], Option.none, Option.none, Option.none, Option.none,
    Option.none, Option.none, false, Option.none, false, ""⟩

/-- An instance of a document whose single field is an `EmailField` holding
the empty string. -/
def emailInst : DocInstance :=
  DocInstance.mk [("email", emailField)] (fun _ => PyVal.str "")

/-- An instance of a document with one `StringField` holding a name. -/
def strInst : DocInstance :=
  DocInstance.mk [("name", strField)] (fun _ => PyVal.str "bob")

/-- The attribute value a save result holds at a name (`none` when the save
raised). -/
def attrAt (r : Except SaveErr DocInstance) (n : String) : Option PyVal :=
  match r with
  | Except.ok i => some (i.attrs n)
  | Except.error _ => Option.none

/-- Claim C10: `construct_instance` leaves every attribute unchanged whose
field name is not a key of `cleaned_data`, is absent from a supplied include
list, or is present in the exclude list; only surviving cleaned fields are
written. -/
theorem C10_construct_instance_frame (cleaned : List (String × PyVal)) (inst : DocInstance)
    (fs ex : Option (List String)) (name : String)
    (h : alookup cleaned name = Option.none ∨ (∃ l, fs = some l ∧ name ∉ l) ∨
      (∃ l, ex = some l ∧ name ∈ l)) :
    (construct_instance cleaned inst fs ex).attrs name = inst.attrs name := by
  have hw : writesAt cleaned fs ex name = false := by
    unfold writesAt
    rcases h with h1 | ⟨l, hl, hn⟩ | ⟨l, hl, hn⟩
    · rw [h1]; rfl
    · subst hl
      have hs : skipFields (some l) name = true := by
        unfold skipFields
        simp only [Bool.not_eq_true']
        cases hc : l.contains name with
        | false => rfl
        | true => exact absurd (List.elem_iff.mp hc) hn
      simp [hs]
    · subst hl
      have hs : skipExclude (some l) name = true := by
        unfold skipExclude optListTruthy optList
        have hne : l.isEmpty = false := by
          cases l with
          | nil => exact absurd hn (List.not_mem_nil _)
          | cons a t => rfl
        have hc : l.contains name = true := List.elem_iff.mpr hn
        simp [hne, hc, hn]
      simp [hs]
  show (inst.fields.foldl (writeField cleaned fs ex) inst.attrs) name = inst.attrs name
  exact foldl_writeField_skip cleaned fs ex name hw inst.fields inst.attrs

/-- Witness for C10 at a concrete input: the name is not a key of the cleaned
data, and its attribute survives the write-back unchanged. -/
theorem C10_construct_instance_frame_witness :
    alookup [("other", PyVal.int 1)] "name" = Option.none ∧
      (construct_instance [("other", PyVal.int 1)] strInst Option.none Option.none).attrs "name" =
        strInst.attrs "name" :=
  ⟨by decide, C10_construct_instance_frame [("other", PyVal.int 1)] strInst Option.none
    Option.none "name" (Or.inl (by decide))⟩

/-- Claim C4: for a surviving cleaned field, `construct_instance` writes
`None` when the field is a URL/email field and its cleaned value is falsy,
and the cleaned value itself otherwise. -/
theorem C4_construct_instance_writeback (cleaned : List (String × PyVal)) (inst : DocInstance)
    (fs ex : Option (List String)) (name : String) (f : MongoField) (v : PyVal)
    (hnd : (inst.fields.map Prod.fst).Nodup)
    (hmem : (name, f) ∈ inst.fields)
    (hv : alookup cleaned name = some v)
    (h1 : skipFields fs name = false) (h2 : skipExclude ex name = false) :
    (construct_instance cleaned inst fs ex).attrs name =
      (if isUrlOrEmail f = true then (if pyTruthy v = true then v else PyVal.none) else v) := by
  show (inst.fields.foldl (writeField cleaned fs ex) inst.attrs) name = _
  rw [foldl_writeField_write cleaned fs ex name f v hv h1 h2 inst.fields inst.attrs hnd hmem]
  rfl

/-- Witness for C4 at a concrete input: an in-scope email field whose cleaned
value is the empty string is written back as `None`. -/
theorem C4_construct_instance_writeback_witness :
    alookup [("email", PyVal.str "")] "email" = some (PyVal.str "") ∧
      (construct_instance [("email", PyVal.str "")] emailInst Option.none Option.none).attrs
          "email" =
        (if isUrlOrEmail emailField = true then
          (if pyTruthy (PyVal.str "") = true then PyVal.str "" else PyVal.none)
        else PyVal.str "") :=
  ⟨by decide, C4_construct_instance_writeback [("email", PyVal.str "")] emailInst Option.none
    Option.none "email" emailField (PyVal.str "") (by decide) (by decide) (by decide)
    (by decide) (by decide)⟩

/-- Claim C1 (amended): the round trip (read values off the instance, submit
them, write back, save with commit=False) returns an instance with all
attribute values unchanged, provided no in-scope URL/email field holds a
falsy value other than `None` (such a value comes back as `None`). -/
theorem C1_roundTrip_preserves (kind : InstKind) (t : String) (pk : Option PyVal)
    (inst : DocInstance) (fs ex : Option (List String))
    (h : ∀ name f, (name, f) ∈ inst.fields → isUrlOrEmail f = true →
      writesAt (doc_to_dict inst fs ex) fs ex name = true →
      (inst.attrs name = PyVal.none ∨ pyTruthy (inst.attrs name) = true)) :
    ∃ out, formRoundTrip kind t pk inst fs ex = Except.ok out ∧
      ∀ n, out.attrs n = inst.attrs n := by
  refine ⟨construct_instance (doc_to_dict inst fs ex) inst fs ex, ?_, ?_⟩
  · unfold formRoundTrip BaseDocForm.save
    cases kind <;> rfl
  · intro n
    show (inst.fields.foldl (writeField (doc_to_dict inst fs ex) fs ex) inst.attrs) n =
      inst.attrs n
    apply foldl_writeField_fix (doc_to_dict inst fs ex) fs ex n (inst.attrs n) inst.fields
      inst.attrs rfl
    intro f v hm hv h1 h2
    have hval : v = inst.attrs n := alookup_doc_to_dict_value inst fs ex n v hv
    unfold writtenVal
    by_cases hu : isUrlOrEmail f = true
    · have hw : writesAt (doc_to_dict inst fs ex) fs ex n = true := by
        unfold writesAt
        rw [hv, h1, h2]
        rfl
      rcases h n f hm hu hw with hnone | htr
      · rw [if_pos hu, hval, hnone]
        rfl
      · rw [if_pos hu, hval, if_pos htr]
    · rw [if_neg hu, hval]

/-- Witness for C1 at a concrete input: a one-string-field instance
round-trips to identical attribute values. -/
theorem C1_roundTrip_preserves_witness :
    isUrlOrEmail strField = false ∧
      ∃ out, formRoundTrip InstKind.document "User" Option.none strInst Option.none Option.none =
          Except.ok out ∧ ∀ n, out.attrs n = strInst.attrs n :=
  ⟨by decide,
    C1_roundTrip_preserves InstKind.document "User" Option.none strInst Option.none Option.none
      (by
        intro name f hm hu _
        simp only [strInst, List.mem_singleton, Prod.mk.injEq] at hm
        rw [hm.2] at hu
        exact absurd hu (by decide))⟩

/-- Counterexample to C1 as stated: an instance whose email field holds the
empty string round-trips to `None` at that field, not to the original
value. -/
theorem C1_counterexample :
    attrAt (formRoundTrip InstKind.document "D" Option.none emailInst Option.none Option.none)
        "email" = some PyVal.none ∧
      emailInst.attrs "email" = PyVal.str "" ∧ PyVal.none ≠ PyVal.str "" :=
  ⟨by decide, rfl, by decide⟩

theorem keys_sdInsert {α : Type} (acc : List (String × α)) (p : String × α) :
    (sdInsert acc p).map Prod.fst =
      if p.1 ∈ acc.map Prod.fst then acc.map Prod.fst else acc.map Prod.fst ++ [p.1] := by
  unfold sdInsert
  by_cases h : acc.any (fun q => q.1 = p.1) = true
  · have hm : p.1 ∈ acc.map Prod.fst := by
      rcases List.any_eq_true.mp h with ⟨q, hq, hqe⟩
      exact (of_decide_eq_true hqe) ▸ List.mem_map.mpr ⟨q, hq, rfl⟩
    rw [if_pos h, if_pos hm, List.map_map]
    refine List.map_congr_left ?_
    intro q _
    by_cases hq : q.1 = p.1 <;> simp [hq]
  · have hm : p.1 ∉ acc.map Prod.fst := by
      intro hmem
      rcases List.mem_map.mp hmem with ⟨q, hq, hqe⟩
      exact h (List.any_eq_true.mpr ⟨q, hq, decide_eq_true hqe⟩)
    rw [if_neg h, if_neg hm, List.map_append]
    rfl

theorem foldl_sdInsert_nodup {α : Type} :
    ∀ (l acc : List (String × α)), ((acc ++ l).map Prod.fst).Nodup →
      l.foldl sdInsert acc = acc ++ l := by
  intro l
  induction l with
  | nil => intro acc _; simp
  | cons p t ih =>
    intro acc hnd
    have hnotin : p.1 ∉ acc.map Prod.fst := by
      rw [List.map_append] at hnd
      have hdisj := (List.nodup_append.mp hnd).2.2
      intro hmem
      exact hdisj hmem (by simp)
    have hins : sdInsert acc p = acc ++ [p] := by
      unfold sdInsert
      have hany : acc.any (fun q => q.1 = p.1) = false := by
        cases hc : acc.any (fun q => q.1 = p.1) with
        | false => rfl
        | true =>
          rcases List.any_eq_true.mp hc with ⟨q, hq, hqe⟩
          exact absurd ((of_decide_eq_true hqe) ▸ List.mem_map.mpr ⟨q, hq, rfl⟩) hnotin
      simp [hany]
    rw [List.foldl_cons, hins, ih (acc ++ [p]) (by simpa using hnd)]
    simp

theorem sortedDictOfList_eq_self {α : Type} (l : List (String × α))
    (h : (l.map Prod.fst).Nodup) : sortedDictOfList l = l := by
  unfold sortedDictOfList
  simpa using foldl_sdInsert_nodup l [] (by simpa using h)

theorem mem_keys_foldl_sdInsert {α : Type} (n : String) :
    ∀ (l acc : List (String × α)),
      (n ∈ (l.foldl sdInsert acc).map Prod.fst ↔
        n ∈ acc.map Prod.fst ∨ n ∈ l.map Prod.fst) := by
  intro l
  induction l with
  | nil => intro acc; simp
  | cons p t ih =>
    intro acc
    rw [List.foldl_cons, ih]
    rw [keys_sdInsert]
    by_cases hp : p.1 ∈ acc.map Prod.fst
    · rw [if_pos hp]
      simp only [List.map_cons, List.mem_cons]
      constructor
      · tauto
      · rintro (h | h | h)
        · tauto
        · exact Or.inl (h ▸ hp)
        · tauto
    · rw [if_neg hp]
      simp only [List.mem_append, List.mem_singleton, List.map_cons, List.mem_cons]
      tauto

theorem mem_keys_sortedDictOfList {α : Type} (n : String) (l : List (String × α)) :
    n ∈ (sortedDictOfList l).map Prod.fst ↔ n ∈ l.map Prod.fst := by
  unfold sortedDictOfList
  rw [mem_keys_foldl_sdInsert]
  simp

theorem filterMap_if_keys {α : Type} (c : String → Bool) (g : String → α) :
    ∀ l : List String,
      (l.filterMap (fun f => if c f = true then some (f, g f) else Option.none)).map Prod.fst =
        l.filter c := by
  intro l
  induction l with
  | nil => rfl
  | cons a t ih =>
    rw [List.filterMap_cons, List.filter_cons]
    by_cases hc : c a = true
    · rw [if_pos hc, if_pos hc, List.map_cons, ih]
    · rw [if_neg hc, ih, if_neg (by simpa using hc)]

theorem ffdLoop_all_skip (widgets : List (String × Nat)) (cb : Option FFCallback)
    (fields exclude : Option (List String)) :
    ∀ (docFields : List (String × MongoField)) (fl : List (String × FormField))
      (ign : List String),
      (∀ p ∈ docFields, skipFields fields p.1 = true) →
      ffdLoop widgets cb fields exclude docFields fl ign = Except.ok (fl, ign) := by
  intro docFields
  induction docFields with
  | nil => intro fl ign _; rfl
  | cons p t ih =>
    intro fl ign h
    unfold ffdLoop
    rw [if_pos (h p (List.mem_cons_self _ _))]
    exact ih fl ign (fun q hq => h q (List.mem_cons_of_mem p hq))

theorem ffdLoop_ign_extends (widgets : List (String × Nat)) (cb : Option FFCallback)
    (fields exclude : Option (List String)) :
    ∀ (docFields : List (String × MongoField)) (fl : List (String × FormField))
      (ign : List String) (fl' : List (String × FormField)) (ign' : List String),
      ffdLoop widgets cb fields exclude docFields fl ign = Except.ok (fl', ign') →
      ∃ t, ign' = ign ++ t := by
  intro docFields
  induction docFields with
  | nil =>
    intro fl ign fl' ign' h
    have := (Except.ok.inj h)
    exact ⟨[], by rw [← (Prod.mk.injEq _ _ _ _).mp this |>.2]; simp⟩
  | cons p t ih =>
    intro fl ign fl' ign' h
    unfold ffdLoop at h
    split at h
    · exact ih fl ign fl' ign' h
    · split at h
      · exact ih fl ign fl' ign' h
      · split at h
        · split at h
          · exact absurd h (by simp)
          · exact ih _ ign fl' ign' h
        · split at h
          · split at h
            · exact ih _ ign fl' ign' h
            · rcases ih fl (ign ++ [p.1]) fl' ign' h with ⟨u, hu⟩
              exact ⟨p.1 :: u, by rw [hu]; simp⟩
          · exact absurd h (by simp)

/-- When the collector loop succeeds with no ignored names, the collected
names are the starting accumulator's names plus every declared field name
that survives the include and exclude filters. -/
theorem ffdLoop_ok_mem (widgets : List (String × Nat)) (cb : Option FFCallback)
    (fields exclude : Option (List String)) :
    ∀ (docFields : List (String × MongoField)) (fl fl' : List (String × FormField)),
      ffdLoop widgets cb fields exclude docFields fl [] = Except.ok (fl', []) →
      ∀ n, (n ∈ fl'.map Prod.fst ↔
        n ∈ fl.map Prod.fst ∨
          ∃ f, (n, f) ∈ docFields ∧ skipFields fields n = false ∧
            skipExclude exclude n = false) := by
  intro docFields
  induction docFields with
  | nil =>
    intro fl fl' h n
    have hfl : fl = fl' := ((Prod.mk.injEq _ _ _ _).mp (Except.ok.inj h)).1
    subst hfl
    simp
  | cons p t ih =>
    intro fl fl' h n
    unfold ffdLoop at h
    split at h
    next hsf =>
      rw [ih _ _ h n]
      constructor
      · rintro (hm | ⟨f, hf, c1, c2⟩)
        · exact Or.inl hm
        · exact Or.inr ⟨f, List.mem_cons_of_mem p hf, c1, c2⟩
      · rintro (hm | ⟨f, hf, c1, c2⟩)
        · exact Or.inl hm
        · rcases List.mem_cons.mp hf with heq | htail
          · exfalso
            have hn1 : n = p.1 := congrArg Prod.fst heq
            rw [hn1, hsf] at c1
            exact absurd c1 (by simp)
          · exact Or.inr ⟨f, htail, c1, c2⟩
    next hsf =>
      have hsf' : skipFields fields p.1 = false := by simpa using hsf
      split at h
      next hse =>
        rw [ih _ _ h n]
        constructor
        · rintro (hm | ⟨f, hf, c1, c2⟩)
          · exact Or.inl hm
          · exact Or.inr ⟨f, List.mem_cons_of_mem p hf, c1, c2⟩
        · rintro (hm | ⟨f, hf, c1, c2⟩)
          · exact Or.inl hm
          · rcases List.mem_cons.mp hf with heq | htail
            · exfalso
              have hn1 : n = p.1 := congrArg Prod.fst heq
              rw [hn1, hse] at c2
              exact absurd c2 (by simp)
            · exact Or.inr ⟨f, htail, c1, c2⟩
      next hse =>
        have hse' : skipExclude exclude p.1 = false := by simpa using hse
        split at h
        · split at h
          next hmf => exact absurd h (by simp)
          next ff hmf =>
            rw [ih _ _ h n]
            simp only [List.map_append, List.mem_append, List.map_cons, List.map_nil,
              List.mem_singleton]
            constructor
            · rintro ((hm | hm) | ⟨f, hf, c1, c2⟩)
              · exact Or.inl hm
              · refine Or.inr ⟨p.2, ?_, hm ▸ hsf', hm ▸ hse'⟩
                rw [hm]
                exact List.mem_cons_self _ _
              · exact Or.inr ⟨f, List.mem_cons_of_mem p hf, c1, c2⟩
            · rintro (hm | ⟨f, hf, c1, c2⟩)
              · exact Or.inl (Or.inl hm)
              · rcases List.mem_cons.mp hf with heq | htail
                · exact Or.inl (Or.inr (congrArg Prod.fst heq))
                · exact Or.inr ⟨f, htail, c1, c2⟩
        · split at h
          next hc =>
            split at h
            next ff hr =>
              rw [ih _ _ h n]
              simp only [List.map_append, List.mem_append, List.map_cons, List.map_nil,
                List.mem_singleton]
              constructor
              · rintro ((hm | hm) | ⟨f, hf, c1, c2⟩)
                · exact Or.inl hm
                · refine Or.inr ⟨p.2, ?_, hm ▸ hsf', hm ▸ hse'⟩
                  rw [hm]
                  exact List.mem_cons_self _ _
                · exact Or.inr ⟨f, List.mem_cons_of_mem p hf, c1, c2⟩
              · rintro (hm | ⟨f, hf, c1, c2⟩)
                · exact Or.inl (Or.inl hm)
                · rcases List.mem_cons.mp hf with heq | htail
                  · exact Or.inl (Or.inr (congrArg Prod.fst heq))
                  · exact Or.inr ⟨f, htail, c1, c2⟩
            next hr =>
              exfalso
              rcases ffdLoop_ign_extends _ _ _ _ t fl _ fl' [] h with ⟨u, hu⟩
              simp at hu
          next hc => exact absurd h (by simp)

/-- A formfield_callback that is callable and declines every field, so every
surviving field name is recorded as ignored. -/
def ignoreAllCb : FFCallback := FFCallback.mk true (fun _ _ => Option.none)

/-- Claim C2 (amended): with a non-null include list, the returned mapping's
keys are the include-list names satisfying the comprehension guard
`keepCond`: every include-list name when no exclude list is given (ignored
names included, bound to null), and otherwise the names neither excluded nor
ignored; order follows the include list. -/
theorem C2_fields_for_doc_include_keys (docFields : List (String × MongoField))
    (l : List String) (exclude : Option (List String)) (widgets : List (String × Nat))
    (cb : Option FFCallback) (fl : List (String × FormField)) (ign : List String)
    (hnd : l.Nodup)
    (hloop : ffdLoop widgets cb (some l) exclude docFields [] [] = Except.ok (fl, ign)) :
    ∃ m, fields_for_doc docFields (some l) exclude widgets cb = Except.ok m ∧
      m.map Prod.fst = l.filter (keepCond exclude ign) := by
  by_cases hl : l.isEmpty = true
  · have hleq : l = [] := by cases l with | nil => rfl | cons a t => simp at hl
    subst hleq
    have hskip := ffdLoop_all_skip widgets cb (some []) exclude docFields [] []
      (fun p _ => rfl)
    rw [hloop] at hskip
    have hpair := (Prod.mk.injEq _ _ _ _).mp (Except.ok.inj hskip)
    have hfl : fl = [] := hpair.1
    have hign : ign = [] := hpair.2
    subst hfl
    subst hign
    refine ⟨[], ?_, by simp⟩
    unfold fields_for_doc
    rw [hloop]
    rfl
  · have hl' : l.isEmpty = false := by simpa using hl
    refine ⟨sortedDictOfList (l.filterMap (fun f =>
      if keepCond exclude ign f = true then some (f, alookup (sortedDictOfList fl) f)
      else Option.none)), ?_, ?_⟩
    · unfold fields_for_doc
      rw [hloop]
      simp [hl']
    · have hkeys := filterMap_if_keys (keepCond exclude ign)
        (fun f => alookup (sortedDictOfList fl) f) l
      have hnd2 : ((l.filterMap (fun f =>
          if keepCond exclude ign f = true then some (f, alookup (sortedDictOfList fl) f)
          else Option.none)).map Prod.fst).Nodup := by
        rw [hkeys]
        exact hnd.filter _
      rw [sortedDictOfList_eq_self _ hnd2, hkeys]

/-- Witness for C2 at a concrete input: a one-field document with the include
list naming that field. -/
theorem C2_fields_for_doc_include_keys_witness :
    (["a"] : List String).Nodup ∧
      ∃ m, fields_for_doc [("a", strField)] (some ["a"]) Option.none [] Option.none =
          Except.ok m ∧ m.map Prod.fst = ["a"].filter (keepCond Option.none []) :=
  ⟨by decide,
    C2_fields_for_doc_include_keys [("a", strField)] ["a"] Option.none [] Option.none
      [("a", FormField.charF Option.none Option.none [] ⟨Option.none, Option.none, false, ""⟩)]
      [] (by decide) (by rfl)⟩

/-- Counterexample to C2 as stated: with include list `["a"]`, no exclude
list, and an override callable that ignores the field, the name `"a"` is
recorded as ignored yet still appears among the returned keys (bound to a
null entry), because the comprehension guard's Python precedence skips the
ignored-check when `exclude` is falsy. -/
theorem C2_counterexample :
    ffdLoop [] (some ignoreAllCb) (some ["a"]) Option.none [("a", strField)] [] [] =
        Except.ok ([], ["a"]) ∧
      fields_for_doc [("a", strField)] (some ["a"]) Option.none [] (some ignoreAllCb) =
        Except.ok [("a", Option.none)] ∧
      [("a", (Option.none : Option FormField))].map Prod.fst ≠
        ["a"].filter (fun f => !(["a"].contains f)) :=
  ⟨by rfl, by rfl, by decide⟩

/-- With no ignored names, the include-list comprehension guard reduces to
the exclude filter. -/
theorem keepCond_nil_ignored (exclude : Option (List String)) (n : String) :
    keepCond exclude [] n = !skipExclude exclude n := by
  unfold keepCond skipExclude
  cases hex : optListTruthy exclude <;> simp [hex]

/-- Claim C9 (amended): the names `doc_to_dict` reads off an instance
coincide with the names `fields_for_doc` keeps under the same configuration,
provided the collector succeeds with no ignored names and the include list
is either absent or non-empty with all its names declared on the document
(the empty include list reads everything but keeps nothing, and undeclared
include-list names are kept but never read). -/
theorem C9_initial_names_match (inst : DocInstance) (fs ex : Option (List String))
    (widgets : List (String × Nat)) (cb : Option FFCallback)
    (fl : List (String × FormField))
    (hloop : ffdLoop widgets cb fs ex inst.fields [] [] = Except.ok (fl, []))
    (hfs : fs = Option.none ∨
      ∃ l, fs = some l ∧ l ≠ [] ∧ ∀ x ∈ l, x ∈ inst.fields.map Prod.fst) :
    ∃ m, fields_for_doc inst.fields fs ex widgets cb = Except.ok m ∧
      ∀ n, (n ∈ (doc_to_dict inst fs ex).map Prod.fst ↔ n ∈ m.map Prod.fst) := by
  rcases hfs with hnone | ⟨l, hsome, hne, hsub⟩
  · subst hnone
    refine ⟨(sortedDictOfList fl).map (fun p => (p.1, some p.2)), ?_, ?_⟩
    · unfold fields_for_doc
      rw [hloop]
    · intro n
      rw [mem_doc_to_dict_keys]
      have hm : (((sortedDictOfList fl).map
          (fun p => (p.1, some (p.2 : FormField)))).map Prod.fst) =
          (sortedDictOfList fl).map Prod.fst := by
        rw [List.map_map]
        rfl
      rw [hm, mem_keys_sortedDictOfList,
        ffdLoop_ok_mem widgets cb Option.none ex inst.fields [] fl hloop n]
      constructor
      · rintro ⟨⟨f, hf⟩, _, hse⟩
        exact Or.inr ⟨f, hf, rfl, hse⟩
      · rintro (hm' | ⟨f, hf, _, hse⟩)
        · simp at hm'
        · exact ⟨⟨f, hf⟩, rfl, hse⟩
  · subst hsome
    have hl' : l.isEmpty = false := by
      cases l with
      | nil => exact absurd rfl hne
      | cons a t => rfl
    refine ⟨sortedDictOfList (l.filterMap (fun f =>
      if keepCond ex [] f = true then some (f, alookup (sortedDictOfList fl) f)
      else Option.none)), ?_, ?_⟩
    · unfold fields_for_doc
      rw [hloop]
      simp [hl']
    · intro n
      rw [mem_doc_to_dict_keys, mem_keys_sortedDictOfList,
        filterMap_if_keys (keepCond ex []) (fun f => alookup (sortedDictOfList fl) f) l,
        List.mem_filter, keepCond_nil_ignored]
      constructor
      · rintro ⟨⟨f, hf⟩, hd, hse⟩
        have hnl : n ∈ l := by
          simp only [d2dSkipFields, optListTruthy, optList, Option.getD, hl',
            Bool.not_false, Bool.true_and, Bool.not_eq_false'] at hd
          exact List.elem_iff.mp hd
        exact ⟨hnl, by rw [hse]; rfl⟩
      · rintro ⟨hnl, hse⟩
        have hse' : skipExclude ex n = false := by
          cases hsk : skipExclude ex n with
          | false => rfl
          | true => rw [hsk] at hse; exact absurd hse (by decide)
        refine ⟨?_, ?_, hse'⟩
        · rcases List.mem_map.mp (hsub n hnl) with ⟨p, hp, hpe⟩
          refine ⟨p.2, ?_⟩
          have hpn : (n, p.2) = p := by rw [← hpe]
          rw [hpn]
          exact hp
        · unfold d2dSkipFields optListTruthy optList
          have hc : l.contains n = true := List.elem_iff.mpr hnl
          simp [hc, hnl]

/-- An instance of a document with one `StringField` named `a` holding an
integer value. -/
def aInst : DocInstance := DocInstance.mk [("a", strField)] (fun _ => PyVal.int 3)

/-- Witness for C9 at a concrete input: no include list, one string field;
the read names and the kept names agree. -/
theorem C9_initial_names_match_witness :
    ∃ m, fields_for_doc aInst.fields Option.none Option.none [] Option.none = Except.ok m ∧
      ∀ n, (n ∈ (doc_to_dict aInst Option.none Option.none).map Prod.fst ↔
        n ∈ m.map Prod.fst) :=
  C9_initial_names_match aInst Option.none Option.none [] Option.none
    [("a", FormField.charF Option.none Option.none [] ⟨Option.none, Option.none, false, ""⟩)]
    (by rfl) (Or.inl rfl)

/-- Counterexample to C9 as stated: with the empty include list,
`doc_to_dict` (truthiness test) reads every field while `fields_for_doc`
(identity test against `None`) keeps none, so the name sets differ. -/
theorem C9_counterexample :
    (doc_to_dict aInst (some []) Option.none).map Prod.fst = ["a"] ∧
      fields_for_doc aInst.fields (some []) Option.none [] Option.none = Except.ok [] ∧
      ¬ ("a" ∈ ([] : List (String × Option FormField)).map Prod.fst) :=
  ⟨rfl, rfl, by decide⟩

theorem ffdLoop_unsupported (widgets : List (String × Nat))
    (fields exclude : Option (List String)) (name : String) (f : MongoField)
    (post : List (String × MongoField))
    (h1 : skipFields fields name = false) (h2 : skipExclude exclude name = false)
    (hmf : mongofield_to_formfield f (widgetFor widgets name) = Option.none) :
    ∀ (pre : List (String × MongoField)) (fl : List (String × FormField)) (ign : List String),
      (∀ q ∈ pre, skipFields fields q.1 = false → skipExclude exclude q.1 = false →
        mongofield_to_formfield q.2 (widgetFor widgets q.1) ≠ Option.none) →
      ffdLoop widgets Option.none fields exclude (pre ++ (name, f) :: post) fl ign =
        Except.error (FormsErr.unsupportedField f) := by
  intro pre
  induction pre with
  | nil =>
    intro fl ign _
    rw [List.nil_append]
    unfold ffdLoop
    simp [h1, h2, hmf]
  | cons q pre' ih =>
    intro fl ign hpre
    have hq := hpre q (List.mem_cons_self _ _)
    rw [List.cons_append]
    unfold ffdLoop
    by_cases hs1 : skipFields fields q.1 = true
    · rw [if_pos hs1]
      exact ih fl ign (fun r hr => hpre r (List.mem_cons_of_mem q hr))
    · rw [if_neg hs1]
      by_cases hs2 : skipExclude exclude q.1 = true
      · rw [if_pos hs2]
        exact ih fl ign (fun r hr => hpre r (List.mem_cons_of_mem q hr))
      · rw [if_neg hs2]
        have hq' := hq (by simpa using hs1) (by simpa using hs2)
        cases hmq : mongofield_to_formfield q.2 (widgetFor widgets q.1) with
        | none => exact absurd hmq hq'
        | some ff =>
          simp only [hmq]
          exact ih _ ign (fun r hr => hpre r (List.mem_cons_of_mem q hr))

/-- Claim C8 (amended): when the translator (no override callable supplied)
yields the null result for the first surviving untranslatable field, the
collector raises the unsupported-field error carrying that field's
descriptor; the field's name is not part of the error (the Python message
interpolates only the descriptor). -/
theorem C8_fields_for_doc_unsupported (pre post : List (String × MongoField))
    (name : String) (f : MongoField) (fields exclude : Option (List String))
    (widgets : List (String × Nat))
    (h1 : skipFields fields name = false) (h2 : skipExclude exclude name = false)
    (hmf : mongofield_to_formfield f (widgetFor widgets name) = Option.none)
    (hpre : ∀ q ∈ pre, skipFields fields q.1 = false → skipExclude exclude q.1 = false →
      mongofield_to_formfield q.2 (widgetFor widgets q.1) ≠ Option.none) :
    fields_for_doc (pre ++ (name, f) :: post) fields exclude widgets Option.none =
      Except.error (FormsErr.unsupportedField f) := by
  unfold fields_for_doc
  rw [ffdLoop_unsupported widgets fields exclude name f post h1 h2 hmf pre [] [] hpre]

/-- Witness for C8 at a concrete input: a supported field followed by an
unsupported one; the collector raises with the unsupported descriptor. -/
theorem C8_fields_for_doc_unsupported_witness :
    mongofield_to_formfield dictField (widgetFor [] "y") = Option.none ∧
      fields_for_doc [("x", strField), ("y", dictField)] Option.none Option.none []
          Option.none =
        Except.error (FormsErr.unsupportedField dictField) :=
  ⟨by rfl,
    C8_fields_for_doc_unsupported [("x", strField)] [] "y" dictField Option.none Option.none
      [] rfl rfl (by rfl)
      (by
        intro q hq _ _
        rw [List.mem_singleton] at hq
        subst hq
        decide)⟩

/-- Counterexample to C8 as stated: two documents whose unsupported field has
different names (`a` and `b`) but the same descriptor produce identical
errors, so the raised error cannot name the offending field's name — it
carries only the descriptor. -/
theorem C8_counterexample :
    fields_for_doc [("a", dictField)] Option.none Option.none [] Option.none =
        Except.error (FormsErr.unsupportedField dictField) ∧
      fields_for_doc [("b", dictField)] Option.none Option.none [] Option.none =
        Except.error (FormsErr.unsupportedField dictField) ∧
      ("a" : String) ≠ "b" :=
  ⟨rfl, rfl, by decide⟩

/-- Claim C3: a descriptor with non-empty choices always translates to a
choice form field, whatever its kind (the choices test precedes the
kind dispatch). -/
theorem C3_choices_precedence (mf : MongoField) (w : Option Nat) (h : mf.choices ≠ []) :
    mongofield_to_formfield mf w =
      some (FormField.choiceF mf.choices ⟨w, mf.verboseName, mf.required, mf.helpText⟩) := by
  unfold mongofield_to_formfield
  rw [if_pos h]

/-- Witness for C3 at a concrete input: a `ListField` (a kind outside the
supported table) with choices yields a choice field. -/
theorem C3_choices_precedence_witness :
    listChoicesField.choices ≠ [] ∧
      mongofield_to_formfield listChoicesField Option.none =
        some (FormField.choiceF listChoicesField.choices
          ⟨Option.none, listChoicesField.verboseName, listChoicesField.required,
            listChoicesField.helpText⟩) :=
  ⟨by decide, C3_choices_precedence listChoicesField Option.none (by decide)⟩

/-- Claim C5 (amended): for a bound instance of the independently-persisted
document kind, saving with recorded errors raises the usage error carrying
the type name and `created`/`changed` according to whether `pk` is unset;
embedded instances return (or reject commit) before this check runs. -/
theorem C5_save_errors_document (t : String) (pk : Option PyVal) (inst : DocInstance)
    (errors : List String) (commit : Bool) (h : errors ≠ []) :
    BaseDocForm.save InstKind.document t pk inst errors commit =
      Except.error (SaveErr.validationError t (if pk.isNone then "created" else "changed")) := by
  unfold BaseDocForm.save
  have he : errors.isEmpty = false := by
    cases errors with
    | nil => exact absurd rfl h
    | cons a t' => rfl
  simp [he]

/-- Witness for C5 at a concrete input: a document instance with no identity
and one recorded error fails to save with the `created` message. -/
theorem C5_save_errors_document_witness :
    (["e"] : List String) ≠ [] ∧
      BaseDocForm.save InstKind.document "User" Option.none aInst ["e"] false =
        Except.error (SaveErr.validationError "User" "created") :=
  ⟨by decide, C5_save_errors_document "User" Option.none aInst ["e"] false (by decide)⟩

/-- Counterexample to C5 as stated: an embedded-document instance with a
non-empty error state saves (commit=False) without raising — the embedded
branch returns before the error check. -/
theorem C5_counterexample :
    BaseDocForm.save InstKind.embedded "E" Option.none aInst ["boom"] false =
        Except.ok aInst ∧
      (["boom"] : List String) ≠ [] :=
  ⟨rfl, by decide⟩

/-- Claim C6: at the failing input (include list naming `bogus`, which is not
a field of the document and not declared), the metaclass reaches the raise
of `FieldError` — a name the module never imports — so class creation fails
with a `NameError` carrying neither the field names nor the document type. -/
theorem C6_missing_fields_raise_name_error :
    docFormBaseFields (some [("a", strField)]) (some ["bogus"]) Option.none [] Option.none [] =
      Except.error (MetaErr.nameErrorUndefined "FieldError") := rfl

/-- Claim C7 (amended): a descriptor with a custom validation callable and
no choices whose kind is not `BooleanField` gets that callable in the
produced field's validator list (choice and boolean form fields receive no
validators argument). -/
theorem C7_validation_in_validators (mf : MongoField) (w : Option Nat) (v : Nat)
    (ff : FormField) (hch : mf.choices = []) (hval : mf.validation = some v)
    (hb : mf.className ≠ "BooleanField")
    (hff : mongofield_to_formfield mf w = some ff) :
    Valr.custom v ∈ ff.validators := by
  unfold mongofield_to_formfield at hff
  rw [if_neg (by simp [hch])] at hff
  simp only [hval] at hff
  split at hff
  · cases hr : mf.regex with
    | none =>
      simp only [hr] at hff
      have hx := Option.some.inj hff
      subst hx
      simp [FormField.validators]
    | some r =>
      simp only [hr] at hff
      have hx := Option.some.inj hff
      subst hx
      simp [FormField.validators]
  · split at hff
    · have hx := Option.some.inj hff
      subst hx
      simp [FormField.validators]
    · split at hff
      · have hx := Option.some.inj hff
        subst hx
        simp [FormField.validators]
      · split at hff
        · have hx := Option.some.inj hff
          subst hx
          simp [FormField.validators]
        · split at hff
          · have hx := Option.some.inj hff
            subst hx
            simp [FormField.validators]
          · split at hff
            · have hx := Option.some.inj hff
              subst hx
              simp [FormField.validators]
            · split at hff
              · have hx := Option.some.inj hff
                subst hx
                simp [FormField.validators]
              · split at hff
                · have hx := Option.some.inj hff
                  subst hx
                  simp [FormField.validators]
                · split at hff
                  · have hx := Option.some.inj hff
                    subst hx
                    simp [FormField.validators]
                  · exact absurd hff (by simp)

/-- A concrete `StringField` descriptor carrying a custom validation callable
(id 5). -/
def strValField : MongoField :=
  ⟨"StringField", [], some 5, Option.none, Option.none, Option.none, Option.none,
    Option.none, false, Option.none, false, ""⟩

/-- Witness for C7 at a concrete input: a string field with a validation
callable produces a char field whose validators contain the callable. -/
theorem C7_validation_in_validators_witness :
    strValField.validation = some 5 ∧
      Valr.custom 5 ∈ (FormField.charF Option.none Option.none [Valr.custom 5]
        ⟨Option.none, Option.none, false, ""⟩).validators :=
  ⟨rfl,
    C7_validation_in_validators strValField Option.none 5
      (FormField.charF Option.none Option.none [Valr.custom 5]
        ⟨Option.none, Option.none, false, ""⟩)
      rfl rfl (by decide) (by rfl)⟩

/-- Counterexample to C7 as stated: a `BooleanField` carrying a validation
callable translates to a boolean form field whose validator list is empty
(the Python `BooleanField(...)` call passes no `validators`). -/
theorem C7_counterexample :
    mongofield_to_formfield boolValField Option.none =
        some (FormField.booleanF ⟨Option.none, Option.none, false, ""⟩) ∧
      (FormField.booleanF ⟨Option.none, Option.none, false, ""⟩).validators = [] ∧
      boolValField.validation = some 7 :=
  ⟨rfl, rfl, rfl⟩

end MongoForms
